import Mathlib

/-!
A shallow embedding of the grimoire repository core (`repo.go`) and the
packages it depends on.  Functions present in `repo.go` (`One`, `Insert`,
`Update`, `Delete`, `Preload`, `Transaction`) are translated directly from
the source.  Packages that the source imports but whose code is not part of
the repository snapshot (`query`, `change`, `where`, `errors`, `schema`) and
the association upsert helpers (`upsertBelongsTo`, `upsertHasOne`,
`upsertHasMany`, exercised only by their tests) are modelled from the spec,
as indicated in their doc comments.

Adapter interaction is embedded in writer style: every repository operation
returns its result together with the ordered list of adapter calls it
issued; scripted adapter responses are supplied through an `Adapter` record
of response functions.
-/

namespace Grimoire

/-- Modelled from the spec: the error taxonomy of the `errors` package
(`NotFound`, `ConstraintViolation`, `Unexpected`; the kinds relevant to the
repository shell). -/
inductive ErrKind where
  | notFound
  | constraintViolation
  | unexpected
  deriving DecidableEq, Repr

/-- Modelled from the spec: `errors.Error`, a message together with a kind
(`errors.New(message, field, kind)`; the `field` component is irrelevant to
the repository shell and omitted). -/
structure Err where
  message : String
  kind : ErrKind
  deriving DecidableEq, Repr

/-- Modelled from the spec: `transformError`. The spec says adapter errors
are returned as-is up the call stack except where the core adds local
semantics, so on already-typed errors the transformation is the identity. -/
def transformError (e : Err) : Err := e

/-- Lift `transformError` over `nil`-or-error results. -/
def transformErrorO (e : Option Err) : Option Err := e.map transformError

/-- Scalar values carried in changesets, conditions and adapter replies
(Go `interface\x7b\x7d` values; ids and column values). -/
inductive Val where
  | intV (i : Int)
  | strV (s : String)
  deriving DecidableEq, Repr

/-- Modelled from the spec: filter conditions of the `where` package
(`where.Eq`, `where.In`, and conjunction `.AndEq` / `.AndIn`). -/
inductive Cond where
  | eqC (column : String) (value : Val)
  | inC (column : String) (values : List Val)
  | andC (left right : Cond)
  deriving DecidableEq, Repr

/-- Modelled from the spec: the `query.Query` value — table name, ordered
filter conditions, limit (0 meaning unlimited). -/
structure Query where
  table : String
  filters : List Cond
  limit : Nat
  deriving DecidableEq, Repr

/-- Modelled from the spec: `query.From(table)`. -/
def Query.fromTable (table : String) : Query :=
  { table := table, filters := [], limit := 0 }

/-- Modelled from the spec: `Query.Where` appends a condition and returns a
new `Query` value. -/
def Query.whereC (q : Query) (c : Cond) : Query :=
  { q with filters := q.filters ++ [c] }

/-- Modelled from the spec: `Query.Limit` returns a new `Query` value with
the limit set. -/
def Query.limitTo (q : Query) (n : Nat) : Query :=
  { q with limit := n }

/-- Modelled from the spec: `query.Builder` values accepted by
`query.Build` — either a bare condition builder (from the `where` package)
or a whole `Query` (a `Query` is itself a builder that replaces the query
under construction, as `Repo.Update` relies on when re-reading). -/
inductive QueryBuilder where
  | whereB (c : Cond)
  | queryB (q : Query)
  deriving DecidableEq, Repr

/-- Apply one builder to a query under construction. -/
def applyQueryBuilder (q : Query) (b : QueryBuilder) : Query :=
  match b with
  | .whereB c => q.whereC c
  | .queryB q' => q'

/-- Modelled from the spec: `query.Build(table, builders...)`. -/
def Query.build (table : String) (builders : List QueryBuilder) : Query :=
  builders.foldl applyQueryBuilder (Query.fromTable table)

/-- Modelled from the spec: the per-column operations of the `change`
package (`Set`, `Increment`, `Fragment`). -/
inductive ChangeOp where
  | setOp (v : Val)
  | incOp (d : Int)
  | fragOp (s : String)
  deriving DecidableEq, Repr

/-- A column-to-operation map: the per-record payload of a changeset. -/
abbrev FieldMap := List (String × ChangeOp)

/-- Modelled from the spec: `change.Changes`, an ordered mapping from
column name to a pending operation, plus an ordered mapping from
association name to the column maps of the nested per-record child
changesets (one per related record). -/
structure Changes where
  fields : FieldMap
  assocs : List (String × List FieldMap)
  deriving DecidableEq, Repr

/-- Insert-or-replace a column binding, keeping order; last value wins. -/
def setField (fs : FieldMap) (col : String) (op : ChangeOp) : FieldMap :=
  match fs with
  | [] => [(col, op)]
  | (c, o) :: rest =>
      if c = col then (c, op) :: rest else (c, o) :: setField rest col op

/-- Insert-or-replace an association entry, keeping order; last wins. -/
def setAssoc (entries : List (String × List FieldMap)) (name : String)
    (chs : List FieldMap) : List (String × List FieldMap) :=
  match entries with
  | [] => [(name, chs)]
  | (n, c) :: rest =>
      if n = name then (n, chs) :: rest else (n, c) :: setAssoc rest name chs

/-- Modelled from the spec: `Changes.SetValue(column, value)`. -/
def Changes.setValue (cs : Changes) (col : String) (v : Val) : Changes :=
  { cs with fields := setField cs.fields col (.setOp v) }

/-- Modelled from the spec: `Changes.GetAssoc(name)` — the nested child
changesets recorded for an association, if any. -/
def Changes.getAssoc (cs : Changes) (name : String) : Option (List FieldMap) :=
  cs.assocs.lookup name

/-- Modelled from the spec: `Changes.GetValue(column)` — the pending `Set`
value for a column, if any. -/
def Changes.getValue (cs : Changes) (col : String) : Option Val :=
  match cs.fields.lookup col with
  | some (.setOp v) => some v
  | _ => none

/-- Modelled from the spec: `Changes.Empty()`. -/
def Changes.isEmptyC (cs : Changes) : Bool := cs.fields.isEmpty

/-- Modelled from the spec: `change.Builder` values accepted by
`change.Build` — `change.Set(column, value)`, `change.Map` literals of
plain column values (which may be empty, building no changes), and a
`change.Map` entry whose value is itself one or more nested maps,
recording child changesets under an association name. -/
inductive ChangeBuilder where
  | set (col : String) (v : Val)
  | mapB (entries : List (String × Val))
  | assocMapB (name : String) (children : List (List (String × Val)))
  deriving DecidableEq, Repr

/-- Turn nested `change.Map` literals into the column maps of the child
changesets they describe. -/
def buildAssocChildren (children : List (List (String × Val))) : List FieldMap :=
  children.map (fun ch => ch.map (fun e => (e.1, ChangeOp.setOp e.2)))

/-- Apply one change builder. -/
def applyChangeBuilder (cs : Changes) (b : ChangeBuilder) : Changes :=
  match b with
  | .set col v => cs.setValue col v
  | .mapB entries => entries.foldl (fun acc e => acc.setValue e.1 e.2) cs
  | .assocMapB name children =>
      { cs with assocs := setAssoc cs.assocs name (buildAssocChildren children) }

/-- Modelled from the spec: `change.Build(builders...)`. -/
def Changes.build (builders : List ChangeBuilder) : Changes :=
  builders.foldl applyChangeBuilder ⟨[], []⟩

/-- A child row materialized by an adapter read during `Preload`: its
foreign-key column value and an opaque payload distinguishing rows. -/
structure Row where
  fkVal : Val
  payload : Nat
  deriving DecidableEq, Repr

/-- One adapter call, as recorded in a repository operation's trace. -/
inductive AdapterCall where
  | allC (q : Query)
  | insertC (q : Query) (cs : Changes)
  | insertAllC (q : Query) (cls : List Changes)
  | updateC (q : Query) (cs : Changes)
  | deleteC (q : Query)
  | beginC
  | commitC
  | rollbackC
  deriving DecidableEq, Repr

/-- Scripted adapter responses.  `allResp` yields the row count reported by
`Adapter.All`; `allRowsResp` yields the rows it materializes into the
output sink (used by `Preload`); `insertResp` yields the assigned id;
`insertAllResp` yields the assigned ids, in submission order. -/
structure Adapter where
  allResp : Query → Except Err Nat
  allRowsResp : Query → Except Err (List Row)
  insertResp : Query → Changes → Except Err Val
  insertAllResp : Query → List Changes → Except Err (List Val)
  updateResp : Query → Changes → Option Err
  deleteResp : Query → Option Err
  beginResp : Option Err
  commitResp : Option Err

/-- Schema metadata of a record, as produced by `schema.InferTableName` and
`schema.InferPrimaryKey` (modelled from the spec: the `schema` package is
not part of the snapshot).  A `none` record stands for Go's `nil`. -/
structure RecordMeta where
  table : String
  primaryKey : String
  primaryValue : Val
  deriving DecidableEq, Repr

/-- The `NotFound` error built by `Repo.One` on a zero-row read
(`errors.New("no result found", "", errors.NotFound)`). -/
def notFoundErr : Err := ⟨"no result found", .notFound⟩

/-- `Repo.One` (repo.go): build the query from the record's table and the
given builders, limit it to 1, read through the adapter; an adapter error
is transformed and returned, zero rows becomes `notFoundErr`, otherwise
`nil`. -/
def Repo.one (adp : Adapter) (table : String) (queries : List QueryBuilder) :
    Option Err × List AdapterCall :=
  let q := (Query.build table queries).limitTo 1
  match adp.allResp q with
  | .error e => (some (transformError e), [.allC q])
  | .ok 0 => (some notFoundErr, [.allC q])
  | .ok (_ + 1) => (none, [.allC q])

/-- `Repo.Insert` (repo.go): `nil` record or no change builders returns
`nil` at once; otherwise build the query and changes, call the adapter's
`Insert`, and on success re-read the record via `One` filtered by
`primaryKey = assigned id`. -/
def Repo.insert (adp : Adapter) (record : Option RecordMeta)
    (cbuilders : List ChangeBuilder) : Option Err × List AdapterCall :=
  match record with
  | none => (none, [])
  | some r =>
      if cbuilders.isEmpty then (none, [])
      else
        let queries := Query.build r.table []
        let changes := Changes.build cbuilders
        match adp.insertResp queries changes with
        | .error e => (some (transformError e), [.insertC queries changes])
        | .ok id =>
            let res := Repo.one adp r.table [.whereB (.eqC r.primaryKey id)]
            (transformErrorO res.1, .insertC queries changes :: res.2)

/-- `Repo.Update` (repo.go): `nil` record or no change builders returns
`nil` at once; empty built changes return `nil` without any adapter call;
otherwise update through the adapter with the query filtered by
`primaryKey = primaryValue`, and on success re-read via `One` with the
same base query. -/
def Repo.update (adp : Adapter) (record : Option RecordMeta)
    (cbuilders : List ChangeBuilder) : Option Err × List AdapterCall :=
  match record with
  | none => (none, [])
  | some r =>
      if cbuilders.isEmpty then (none, [])
      else
        let queries := Query.build r.table [.whereB (.eqC r.primaryKey r.primaryValue)]
        let changes := Changes.build cbuilders
        if changes.isEmptyC then (none, [])
        else
          match adp.updateResp queries changes with
          | some e => (some (transformError e), [.updateC queries changes])
          | none =>
              let res := Repo.one adp r.table [.queryB queries]
              (res.1, .updateC queries changes :: res.2)

/-- `Repo.Delete` (repo.go): delete through the adapter with the query
filtered by `primaryKey = primaryValue`. -/
def Repo.delete (adp : Adapter) (r : RecordMeta) : Option Err × List AdapterCall :=
  let q := Query.build r.table [.whereB (.eqC r.primaryKey r.primaryValue)]
  (Option.map transformError (adp.deleteResp q), [.deleteC q])

/-- A Go panic value: either an `errors.Error` (so the type assertion
`p.(errors.Error)` succeeds) or any other value. -/
inductive PanicVal where
  | errVal (e : Err)
  | otherVal (s : String)
  deriving DecidableEq, Repr

/-- Observable behaviour of the function passed to `Transaction`: a normal
return carrying `nil` or an error, or a panic. -/
inductive FnBehavior where
  | ret (e : Option Err)
  | panics (p : PanicVal)
  deriving DecidableEq, Repr

/-- Observable outcome of `Transaction`: a normal return carrying `nil` or
an error, or a propagated panic. -/
inductive TxOutcome where
  | returned (e : Option Err)
  | panicked (p : PanicVal)
  deriving DecidableEq, Repr

/-- `Repo.Transaction` (repo.go): begin; on begin failure return its error.
Run `fn` on the transactional repo with deferred cleanup: a panic triggers
`Rollback`, then an `errors.Error` of kind other than `Unexpected` becomes
the returned error while any other panic value is re-raised unchanged; a
normal return with a non-nil error triggers `Rollback` and that error is
returned; a normal `nil` return triggers `Commit`, whose error (if any) is
the transaction's result. -/
def Repo.transaction (adp : Adapter) (fn : FnBehavior) :
    TxOutcome × List AdapterCall :=
  match adp.beginResp with
  | some e => (.returned (some e), [.beginC])
  | none =>
      match fn with
      | .panics p =>
          match p with
          | .errVal e =>
              if e.kind ≠ .unexpected then
                (.returned (some e), [.beginC, .rollbackC])
              else
                (.panicked p, [.beginC, .rollbackC])
          | .otherVal _ => (.panicked p, [.beginC, .rollbackC])
      | .ret (some e) => (.returned (some e), [.beginC, .rollbackC])
      | .ret none =>
          match adp.commitResp with
          | some e => (.returned (some e), [.beginC, .commitC])
          | none => (.returned none, [.beginC, .commitC])

/-- Outcome of an association upsert step: success, a surfaced adapter
error, or a fatal caller-contract violation (a Go panic). -/
inductive UpsertResult where
  | ok
  | err (e : Err)
  | panicked
  deriving DecidableEq, Repr

/-- Convert a `nil`-or-error result to an `UpsertResult`. -/
def resultOfOpt : Option Err → UpsertResult
  | some e => .err e
  | none => .ok

/-- Association metadata for a hasMany upsert: the children's table, their
primary-key column, the foreign-key column pointing at the parent, and the
parent's primary-key value. -/
structure HasManyCtx where
  childTable : String
  childPk : String
  fkColumn : String
  parentId : Val
  deriving DecidableEq, Repr

/-- Modelled from the spec: the insert stage of `Repo.upsertHasMany`
(the function is exercised only by its tests in the snapshot).  Every
incoming child changeset has the parent's primary key stamped into its
foreign-key column, then all are batch-inserted in one `InsertAll` call;
on success the affected rows are re-read by `primaryKey IN (assigned
ids)`; any failure is surfaced unchanged. -/
def hasManyInsert (adp : Adapter) (ctx : HasManyCtx) (assocChs : List Changes) :
    UpsertResult × List AdapterCall × List Changes :=
  let q := Query.fromTable ctx.childTable
  let stamped := assocChs.map (fun c => c.setValue ctx.fkColumn ctx.parentId)
  match adp.insertAllResp q stamped with
  | .error e => (.err e, [.insertAllC q stamped], stamped)
  | .ok ids =>
      let rq := q.whereC (.inC ctx.childPk ids)
      match adp.allResp rq with
      | .error e => (.err e, [.insertAllC q stamped, .allC rq], stamped)
      | .ok _ => (.ok, [.insertAllC q stamped, .allC rq], stamped)

/-- Modelled from the spec: `Repo.upsertHasMany(doc, changes, parentId,
insertion)` (exercised only by its tests in the snapshot).  `loadedIds`
is the list of primary keys carried by the currently loaded children, or
`none` when the association is not loaded.  When `insertion` is false
(replacement of an existing parent's collection): an unloaded association
is a fatal precondition violation; if at least one loaded child carries a
primary key, a single bulk `Delete` filtered by
`foreignKey = parentId AND primaryKey IN loadedIds` precedes the insert
stage, and a delete failure aborts before any insert.  The returned
changesets are the stamped child changesets. -/
def Repo.upsertHasMany (adp : Adapter) (ctx : HasManyCtx)
    (loadedIds : Option (List Val)) (assocChs : List Changes)
    (insertion : Bool) : UpsertResult × List AdapterCall × List Changes :=
  match insertion, loadedIds with
  | true, _ => hasManyInsert adp ctx assocChs
  | false, none => (.panicked, [], assocChs)
  | false, some ids =>
      if ids.isEmpty then hasManyInsert adp ctx assocChs
      else
        let dq := (Query.fromTable ctx.childTable).whereC
          (.andC (.eqC ctx.fkColumn ctx.parentId) (.inC ctx.childPk ids))
        match adp.deleteResp dq with
        | some e => (.err e, [.deleteC dq], assocChs)
        | none =>
            let res := hasManyInsert adp ctx assocChs
            (res.1, .deleteC dq :: res.2.1, res.2.2)

/-- Association metadata for a belongsTo upsert: the associated record's
table, its primary-key column, the owner's foreign-key column referencing
it, and the primary key of the currently loaded associated record (`none`
when it is not loaded / has no primary key). -/
structure BelongsToCtx where
  childTable : String
  childPk : String
  fkColumn : String
  loadedPk : Option Val
  deriving DecidableEq, Repr

/-- Modelled from the spec: the update branch of `Repo.upsertBelongsTo` —
update the associated row filtered by its primary key, then re-read it by
the same query; adapter errors are surfaced unchanged. -/
def belongsToUpdate (adp : Adapter) (ctx : BelongsToCtx) (ch : Changes)
    (pk : Val) (parent : Changes) :
    UpsertResult × List AdapterCall × Changes :=
  let q := (Query.fromTable ctx.childTable).whereC (.eqC ctx.childPk pk)
  match adp.updateResp q ch with
  | some e => (.err e, [.updateC q ch], parent)
  | none =>
      let res := Repo.one adp ctx.childTable [.queryB q]
      (resultOfOpt res.1, .updateC q ch :: res.2, parent)

/-- Modelled from the spec: the insert branch of `Repo.upsertBelongsTo` —
insert the associated row; on success propagate its assigned id into the
owner's changeset as the owner's foreign-key column and re-read the row by
primary key; on failure surface the error with the owner's changeset left
untouched. -/
def belongsToInsert (adp : Adapter) (ctx : BelongsToCtx) (ch : Changes)
    (parent : Changes) : UpsertResult × List AdapterCall × Changes :=
  let q := Query.fromTable ctx.childTable
  match adp.insertResp q ch with
  | .error e => (.err e, [.insertC q ch], parent)
  | .ok id =>
      let parent2 := parent.setValue ctx.fkColumn id
      let res := Repo.one adp ctx.childTable [.whereB (.eqC ctx.childPk id)]
      (resultOfOpt res.1, .insertC q ch :: res.2, parent2)

/-- Modelled from the spec: `Repo.upsertBelongsTo(doc, changes)` (exercised
only by its tests in the snapshot).  An empty association changeset is
skipped.  A nested changeset carrying a primary-key value that differs
from the currently loaded associated record's primary key is a fatal
inconsistency, aborted before any adapter call.  Otherwise a loaded
association is updated and an unloaded one inserted.  Returns the
outcome, the adapter-call trace, and the owner's (possibly updated)
changeset. -/
def Repo.upsertBelongsTo (adp : Adapter) (ctx : BelongsToCtx)
    (assocChs : List Changes) (parent : Changes) :
    UpsertResult × List AdapterCall × Changes :=
  match assocChs with
  | [] => (.ok, [], parent)
  | ch :: _ =>
      match ch.getValue ctx.childPk with
      | some v =>
          if ctx.loadedPk = some v then belongsToUpdate adp ctx ch v parent
          else (.panicked, [], parent)
      | none =>
          match ctx.loadedPk with
          | some l => belongsToUpdate adp ctx ch l parent
          | none => belongsToInsert adp ctx ch parent

/-- Association metadata for a hasOne upsert: the child's table, its
primary-key column, its foreign-key column referencing the owner, the
owner's primary-key value, and the primary key of the currently loaded
child (`none` when unloaded). -/
structure HasOneCtx where
  childTable : String
  childPk : String
  fkColumn : String
  parentId : Val
  loadedPk : Option Val
  deriving DecidableEq, Repr

/-- Modelled from the spec: the update branch of `Repo.upsertHasOne` —
update the child filtered by both its primary key and the foreign key
(defensive double predicate), then re-read by the same query. -/
def hasOneUpdate (adp : Adapter) (ctx : HasOneCtx) (ch : Changes) (pk : Val) :
    UpsertResult × List AdapterCall :=
  let q := (Query.fromTable ctx.childTable).whereC
    (.andC (.eqC ctx.childPk pk) (.eqC ctx.fkColumn ctx.parentId))
  match adp.updateResp q ch with
  | some e => (.err e, [.updateC q ch])
  | none =>
      let res := Repo.one adp ctx.childTable [.queryB q]
      (resultOfOpt res.1, .updateC q ch :: res.2)

/-- Modelled from the spec: the insert branch of `Repo.upsertHasOne` — the
owner's primary key is stamped into the child changeset's foreign-key
column before the insert; on success the child is re-read by its assigned
primary key. -/
def hasOneInsert (adp : Adapter) (ctx : HasOneCtx) (ch : Changes) :
    UpsertResult × List AdapterCall :=
  let ch2 := ch.setValue ctx.fkColumn ctx.parentId
  let q := Query.fromTable ctx.childTable
  match adp.insertResp q ch2 with
  | .error e => (.err e, [.insertC q ch2])
  | .ok id =>
      let res := Repo.one adp ctx.childTable [.whereB (.eqC ctx.childPk id)]
      (resultOfOpt res.1, .insertC q ch2 :: res.2)

/-- Modelled from the spec: `Repo.upsertHasOne(doc, changes, filters)`
(exercised only by its tests in the snapshot).  Mirrors `upsertBelongsTo`:
empty association changesets are skipped; a nested primary key differing
from the loaded child's primary key aborts fatally before any adapter
call; otherwise loaded children are updated and unloaded ones inserted. -/
def Repo.upsertHasOne (adp : Adapter) (ctx : HasOneCtx)
    (assocChs : List Changes) : UpsertResult × List AdapterCall :=
  match assocChs with
  | [] => (.ok, [])
  | ch :: _ =>
      match ch.getValue ctx.childPk with
      | some v =>
          if ctx.loadedPk = some v then hasOneUpdate adp ctx ch v
          else (.panicked, [])
      | none =>
          match ctx.loadedPk with
          | some l => hasOneUpdate adp ctx ch l
          | none => hasOneInsert adp ctx ch

/-- One preload leaf target: the collected reference-key value at this
address (`none` when absent), whether the target field is slice-typed
(hasMany) as opposed to pointer- or value-typed (hasOne/belongsTo), and
its current contents (a list; at most one element for non-slice targets). -/
structure PreloadTarget where
  refVal : Option Val
  isSlice : Bool
  content : List Row
  deriving DecidableEq, Repr

/-- One step of the mapping loop of `Repo.Preload` (repo.go): a target
address whose collected key equals the row's foreign-key value receives
the row — appended for slice targets, assigned (replacing the previous
contents) for pointer or value targets; other targets are untouched. -/
def stepRow (row : Row) (t : PreloadTarget) : PreloadTarget :=
  if t.refVal = some row.fkVal then
    if t.isSlice then { t with content := t.content ++ [row] }
    else { t with content := [row] }
  else t

/-- The mapping loop of `Repo.Preload` (repo.go): each returned row is
offered to every target address in order. -/
def assignRows (targets : List PreloadTarget) (rows : List Row) :
    List PreloadTarget :=
  rows.foldl (fun ts row => ts.map (stepRow row)) targets

/-- The effect of the `Preload` mapping loop on a single target. -/
def assignOne (t : PreloadTarget) (rows : List Row) : PreloadTarget :=
  rows.foldl (fun t row => stepRow row t) t

/-- Whether a child row belongs to a preload target with the given
collected reference-key value: that value equals the row's foreign-key
value. -/
def rowMatches (rv : Option Val) (row : Row) : Bool :=
  decide (rv = some row.fkVal)

/-- The rows of an adapter reply that belong to a target with the given
collected reference-key value, in reply order. -/
def matchedRows (rv : Option Val) (rows : List Row) : List Row :=
  rows.filter (rowMatches rv)

/-- Modelled from the spec: `collectPreloadTarget` — the distinct
reference-key values collected from the targets (absent values skipped). -/
def collectIds (targets : List PreloadTarget) : List Val :=
  (targets.filterMap (fun t => t.refVal)).eraseDups

/-- `Repo.Preload` (repo.go), after path traversal: with no targets or no
collected reference values it returns `nil` without any adapter call;
otherwise it issues exactly one read filtered by
`column IN (collected values)` over the child table, surfaces a read error,
and on success maps the returned rows onto the targets. -/
def Repo.preload (adp : Adapter) (childTable column : String)
    (targets : List PreloadTarget) :
    Option Err × List AdapterCall × List PreloadTarget :=
  if targets.isEmpty then (none, [], targets)
  else
    let ids := collectIds targets
    if ids.isEmpty then (none, [], targets)
    else
      let q := Query.build childTable [.whereB (.inC column ids)]
      match adp.allRowsResp q with
      | .error e => (some e, [.allC q], targets)
      | .ok rows => (none, [.allC q], assignRows targets rows)

/-! ## Helper lemmas -/

/-- `Repo.one` issues exactly one adapter read, whatever the response. -/
theorem one_trace (adp : Adapter) (table : String) (queries : List QueryBuilder) :
    (Repo.one adp table queries).2 =
      [.allC ((Query.build table queries).limitTo 1)] := by
  simp only [Repo.one]
  split <;> rfl

/-- Looking a column up after `setField` yields the new operation. -/
theorem lookup_setField (fs : List (String × ChangeOp)) (col : String)
    (op : ChangeOp) : (setField fs col op).lookup col = some op := by
  induction fs with
  | nil => simp [setField]
  | cons p rest ih =>
      by_cases h : p.1 = col
      · simp [setField, h]
      · have hbeq : (col == p.1) = false := beq_eq_false_iff_ne.mpr (Ne.symm h)
        simpa [setField, h, List.lookup, hbeq] using ih

/-- `GetValue` after `SetValue` on the same column yields the set value. -/
theorem getValue_setValue (cs : Changes) (col : String) (v : Val) :
    (cs.setValue col v).getValue col = some v := by
  simp [Changes.getValue, Changes.setValue, lookup_setField]

/-! ## Claim theorems -/

/-- Shared scripted adapter for witnesses: every operation succeeds, with
id 1 assigned on insert, ids 3 on batch insert, one row read back. -/
def adpOk : Adapter where
  allResp := fun _ => .ok 1
  allRowsResp := fun _ => .ok []
  insertResp := fun _ _ => .ok (.intV 1)
  insertAllResp := fun _ _ => .ok [.intV 3]
  updateResp := fun _ _ => none
  deleteResp := fun _ => none
  beginResp := none
  commitResp := none

/-- C1: if the function passed to `Transaction` returns a non-nil error, or
panics with an `errors.Error` of a kind other than `Unexpected`, then the
transaction issues exactly one Rollback and zero Commit calls, and that
error is returned unchanged to the caller. -/
theorem grimoire_C1_transaction_expected_error_rolls_back
    (adp : Adapter) (fn : FnBehavior) (e : Err)
    (hb : adp.beginResp = none)
    (h : fn = .ret (some e) ∨
      (fn = .panics (.errVal e) ∧ e.kind ≠ .unexpected)) :
    Repo.transaction adp fn = (.returned (some e), [.beginC, .rollbackC]) ∧
    (Repo.transaction adp fn).2.count .rollbackC = 1 ∧
    (Repo.transaction adp fn).2.count .commitC = 0 := by
  have htr : Repo.transaction adp fn = (.returned (some e), [.beginC, .rollbackC]) := by
    rcases h with h | ⟨h, hk⟩
    · subst h; simp [Repo.transaction, hb]
    · subst h; simp [Repo.transaction, hb, hk]
  refine ⟨htr, ?_, ?_⟩ <;> rw [htr] <;> rfl

/-- C1 witness: a function returning a `ConstraintViolation` error. -/
theorem grimoire_C1_witness :
    Repo.transaction adpOk (.ret (some ⟨"error", .constraintViolation⟩)) =
      (.returned (some ⟨"error", .constraintViolation⟩), [.beginC, .rollbackC]) :=
  (grimoire_C1_transaction_expected_error_rolls_back adpOk _
    ⟨"error", .constraintViolation⟩ rfl (Or.inl rfl)).1

/-- C8: if the function passed to `Transaction` panics with a value of
unrecognized kind (a non-error value, or an error of `Unexpected` kind),
the transaction issues exactly one Rollback and re-raises the identical
panic value; the panic is never converted into a returned error. -/
theorem grimoire_C8_transaction_unrecognized_panic_rethrows
    (adp : Adapter) (p : PanicVal)
    (hb : adp.beginResp = none)
    (h : (∃ s, p = .otherVal s) ∨ (∃ e, p = .errVal e ∧ e.kind = .unexpected)) :
    Repo.transaction adp (.panics p) = (.panicked p, [.beginC, .rollbackC]) ∧
    (Repo.transaction adp (.panics p)).2.count .rollbackC = 1 ∧
    (Repo.transaction adp (.panics p)).2.count .commitC = 0 := by
  have htr : Repo.transaction adp (.panics p) = (.panicked p, [.beginC, .rollbackC]) := by
    rcases h with ⟨s, h⟩ | ⟨e, h, hk⟩
    · subst h; simp [Repo.transaction, hb]
    · subst h; simp [Repo.transaction, hb, hk]
  refine ⟨htr, ?_, ?_⟩ <;> rw [htr] <;> rfl

/-- C8 witness: a panic with a plain (non-error) value. -/
theorem grimoire_C8_witness :
    Repo.transaction adpOk (.panics (.otherVal "error")) =
      (.panicked (.otherVal "error"), [.beginC, .rollbackC]) :=
  (grimoire_C8_transaction_unrecognized_panic_rethrows adpOk _
    rfl (Or.inl ⟨"error", rfl⟩)).1

/-- C6: `One` propagates an adapter read error to the caller; a successful
read matching zero rows yields a `NotFound`-kind error; at least one row
yields `nil`. -/
theorem grimoire_C6_one_result_semantics
    (adp : Adapter) (table : String) (queries : List QueryBuilder) :
    (∀ e, adp.allResp ((Query.build table queries).limitTo 1) = .error e →
       Repo.one adp table queries =
         (some e, [.allC ((Query.build table queries).limitTo 1)])) ∧
    (adp.allResp ((Query.build table queries).limitTo 1) = .ok 0 →
       Repo.one adp table queries =
         (some notFoundErr, [.allC ((Query.build table queries).limitTo 1)]) ∧
       notFoundErr.kind = .notFound) ∧
    (∀ n, adp.allResp ((Query.build table queries).limitTo 1) = .ok (n + 1) →
       Repo.one adp table queries =
         (none, [.allC ((Query.build table queries).limitTo 1)])) := by
  refine ⟨fun e he => ?_, fun h0 => ⟨?_, rfl⟩, fun n hn => ?_⟩ <;>
    simp [Repo.one, transformError, *]

/-- C6 witness: a zero-row read yields the `NotFound` error. -/
theorem grimoire_C6_witness :
    Repo.one
      { adpOk with allResp := fun _ => .ok 0 } "users" [] =
      (some notFoundErr, [.allC ((Query.build "users" []).limitTo 1)]) ∧
    notFoundErr.kind = .notFound :=
  (grimoire_C6_one_result_semantics
    { adpOk with allResp := fun _ => .ok 0 } "users" []).2.1 rfl

/-- C10: `Insert` and `Update` with a nil record or no change builders
return `nil` with no adapter call, and `Update` whose built changes are
empty also returns `nil` with no adapter call. -/
theorem grimoire_C10_noop_guards
    (adp : Adapter) (r : RecordMeta) (cb : List ChangeBuilder)
    (hcb : cb ≠ []) (hempty : (Changes.build cb).isEmptyC = true) :
    Repo.insert adp none cb = (none, []) ∧
    Repo.insert adp (some r) [] = (none, []) ∧
    Repo.update adp none cb = (none, []) ∧
    Repo.update adp (some r) [] = (none, []) ∧
    Repo.update adp (some r) cb = (none, []) := by
  refine ⟨rfl, rfl, rfl, rfl, ?_⟩
  simp [Repo.update, hcb, hempty]

/-- C10 witness: an empty `change.Map` builds empty changes, so `Update`
is a no-op even with a builder supplied. -/
theorem grimoire_C10_witness :
    Repo.update adpOk (some ⟨"users", "id", .intV 1⟩) [.mapB []] = (none, []) :=
  (grimoire_C10_noop_guards adpOk ⟨"users", "id", .intV 1⟩ [.mapB []]
    (by decide) (by decide)).2.2.2.2

/-- C2: for `Insert` with a non-nil record and at least one change builder,
a successful adapter insert returning an assigned id is immediately
followed by a re-read filtered by `primaryKey = assigned id`; a failed
adapter insert issues no re-read and surfaces the error. -/
theorem grimoire_C2_insert_reread_by_assigned_id
    (adp : Adapter) (r : RecordMeta) (cbuilders : List ChangeBuilder)
    (h : cbuilders ≠ []) :
    (∀ e, adp.insertResp (Query.build r.table []) (Changes.build cbuilders) = .error e →
       Repo.insert adp (some r) cbuilders =
         (some e, [.insertC (Query.build r.table []) (Changes.build cbuilders)])) ∧
    (∀ id, adp.insertResp (Query.build r.table []) (Changes.build cbuilders) = .ok id →
       (Repo.insert adp (some r) cbuilders).2 =
         [.insertC (Query.build r.table []) (Changes.build cbuilders),
          .allC (((Query.fromTable r.table).whereC (.eqC r.primaryKey id)).limitTo 1)]) := by
  have h' : cbuilders.isEmpty = false := by
    cases cbuilders with
    | nil => exact absurd rfl h
    | cons a l => rfl
  constructor
  · intro e he
    simp [Repo.insert, h', he, transformError]
  · intro id hid
    simp only [Query.build, applyQueryBuilder, List.foldl] at hid
    simp [Repo.insert, h', hid, one_trace, Query.build, applyQueryBuilder,
      List.foldl]

/-- C2 witness: a concrete insert with assigned id 1 re-reads by `id = 1`. -/
theorem grimoire_C2_witness :
    (Repo.insert adpOk (some ⟨"users", "id", .intV 0⟩)
        [.set "name" (.strV "name")]).2 =
      [.insertC (Query.build "users" []) (Changes.build [.set "name" (.strV "name")]),
       .allC (((Query.fromTable "users").whereC (.eqC "id" (.intV 1))).limitTo 1)] :=
  (grimoire_C2_insert_reread_by_assigned_id adpOk ⟨"users", "id", .intV 0⟩
    [.set "name" (.strV "name")] (by decide)).2 (.intV 1) rfl

/-- C9: query builder operations return new values — `Where` appends a
filter yielding a query distinct from the original, `Limit` leaves table
and filters intact — and `Repo.Update` reuses one base query for both the
adapter update and the `Limit(1)` re-read without either corrupting the
other. -/
theorem grimoire_C9_query_value_semantics
    (q : Query) (c : Cond) (n : Nat) (adp : Adapter) (r : RecordMeta)
    (cb : List ChangeBuilder) (h1 : cb ≠ [])
    (h2 : (Changes.build cb).isEmptyC = false)
    (h3 : adp.updateResp
      (Query.build r.table [.whereB (.eqC r.primaryKey r.primaryValue)])
      (Changes.build cb) = none) :
    ((q.whereC c).table = q.table ∧ (q.whereC c).filters = q.filters ++ [c] ∧
      q.whereC c ≠ q) ∧
    ((q.limitTo n).table = q.table ∧ (q.limitTo n).filters = q.filters) ∧
    (Repo.update adp (some r) cb).2 =
      [.updateC (Query.build r.table [.whereB (.eqC r.primaryKey r.primaryValue)])
         (Changes.build cb),
       .allC ((Query.build r.table
         [.whereB (.eqC r.primaryKey r.primaryValue)]).limitTo 1)] := by
  have h1' : cb.isEmpty = false := by
    cases cb with
    | nil => exact absurd rfl h1
    | cons a l => rfl
  refine ⟨⟨rfl, rfl, ?_⟩, ⟨rfl, rfl⟩, ?_⟩
  · intro heq
    have hl := congrArg (fun x => x.filters.length) heq
    simp [Query.whereC] at hl
  · simp only [Query.build, applyQueryBuilder, List.foldl] at h3
    simp [Repo.update, h1', h2, h3, one_trace, Query.build, applyQueryBuilder,
      List.foldl]

/-- C9 witness: a concrete update issues the base query to the adapter and
derives the `Limit(1)` re-read from the same base. -/
theorem grimoire_C9_witness :
    (Repo.update adpOk (some ⟨"users", "id", .intV 1⟩)
        [.set "name" (.strV "name")]).2 =
      [.updateC (Query.build "users" [.whereB (.eqC "id" (.intV 1))])
         (Changes.build [.set "name" (.strV "name")]),
       .allC ((Query.build "users" [.whereB (.eqC "id" (.intV 1))]).limitTo 1)] :=
  (grimoire_C9_query_value_semantics (Query.fromTable "users")
    (.eqC "id" (.intV 1)) 1 adpOk ⟨"users", "id", .intV 1⟩
    [.set "name" (.strV "name")] (by decide) (by decide) rfl).2.2

/-- C5: any belongsTo or hasOne upsert whose nested changeset carries a
primary-key value different from the loaded associated record's primary
key aborts fatally before issuing any adapter call. -/
theorem grimoire_C5_pk_conflict_aborts
    (adp : Adapter) (bctx : BelongsToCtx) (hctx : HasOneCtx)
    (ch ch2 parent : Changes) (rest rest2 : List Changes) (l v l2 v2 : Val)
    (hb1 : bctx.loadedPk = some l) (hb2 : ch.getValue bctx.childPk = some v)
    (hb3 : v ≠ l)
    (hh1 : hctx.loadedPk = some l2) (hh2 : ch2.getValue hctx.childPk = some v2)
    (hh3 : v2 ≠ l2) :
    Repo.upsertBelongsTo adp bctx (ch :: rest) parent = (.panicked, [], parent) ∧
    Repo.upsertHasOne adp hctx (ch2 :: rest2) = (.panicked, []) := by
  have hb : l ≠ v := fun he => hb3 he.symm
  have hh : l2 ≠ v2 := fun he => hh3 he.symm
  constructor
  · simp [Repo.upsertBelongsTo, hb1, hb2, hb]
  · simp [Repo.upsertHasOne, hh1, hh2, hh]

/-- C5 witness: the belongsTo conflict of a loaded child with id 1 against
a changeset declaring id 2, and the mirrored hasOne conflict. -/
theorem grimoire_C5_witness :
    Repo.upsertBelongsTo adpOk ⟨"users", "id", "user_id", some (.intV 1)⟩
        [Changes.build [.set "id" (.intV 2)]] (Changes.build []) =
      (.panicked, [], Changes.build []) ∧
    Repo.upsertHasOne adpOk ⟨"addresses", "id", "user_id", .intV 1, some (.intV 2)⟩
        [Changes.build [.set "id" (.intV 1)]] = (.panicked, []) :=
  grimoire_C5_pk_conflict_aborts adpOk _ _ _ _ _ [] []
    (.intV 1) (.intV 2) (.intV 2) (.intV 1)
    rfl rfl (by decide) rfl rfl (by decide)

/-- The insert stage of a hasMany upsert always opens its trace with the
single batch `InsertAll` of the stamped changesets. -/
theorem hasManyInsert_trace (adp : Adapter) (ctx : HasManyCtx)
    (assocChs : List Changes) :
    ∃ rest, (hasManyInsert adp ctx assocChs).2.1 =
      .insertAllC (Query.fromTable ctx.childTable)
        (assocChs.map (fun c => c.setValue ctx.fkColumn ctx.parentId)) :: rest := by
  simp only [hasManyInsert]
  split
  · exact ⟨_, rfl⟩
  · split
    · exact ⟨_, rfl⟩
    · exact ⟨_, rfl⟩

/-- C3: a hasMany upsert with a loaded association whose children carry
primary keys and with replacement intended issues exactly one bulk delete
filtered by `foreignKey = parentId AND primaryKey IN loadedIds` before the
single batch `InsertAll`; a delete failure aborts before any insert with
the error unchanged; on the insert path every inserted changeset carries
the parent id in its foreign-key column. -/
theorem grimoire_C3_hasMany_replace_delete_before_insert
    (adp : Adapter) (ctx : HasManyCtx) (ids : List Val)
    (assocChs : List Changes) (hids : ids ≠ []) :
    (∀ e,
      adp.deleteResp ((Query.fromTable ctx.childTable).whereC
          (.andC (.eqC ctx.fkColumn ctx.parentId) (.inC ctx.childPk ids))) = some e →
      Repo.upsertHasMany adp ctx (some ids) assocChs false =
        (.err e,
         [.deleteC ((Query.fromTable ctx.childTable).whereC
            (.andC (.eqC ctx.fkColumn ctx.parentId) (.inC ctx.childPk ids)))],
         assocChs)) ∧
    (adp.deleteResp ((Query.fromTable ctx.childTable).whereC
          (.andC (.eqC ctx.fkColumn ctx.parentId) (.inC ctx.childPk ids))) = none →
      (∃ rest,
        (Repo.upsertHasMany adp ctx (some ids) assocChs false).2.1 =
          .deleteC ((Query.fromTable ctx.childTable).whereC
              (.andC (.eqC ctx.fkColumn ctx.parentId) (.inC ctx.childPk ids))) ::
            .insertAllC (Query.fromTable ctx.childTable)
              (assocChs.map (fun c => c.setValue ctx.fkColumn ctx.parentId)) :: rest) ∧
      ∀ c ∈ assocChs.map (fun c => c.setValue ctx.fkColumn ctx.parentId),
        c.getValue ctx.fkColumn = some ctx.parentId) := by
  have hids' : ids.isEmpty = false := by
    cases ids with
    | nil => exact absurd rfl hids
    | cons a l => rfl
  constructor
  · intro e he
    simp [Repo.upsertHasMany, hids', he]
  · intro hd
    constructor
    · obtain ⟨rest, hrest⟩ := hasManyInsert_trace adp ctx assocChs
      refine ⟨rest, ?_⟩
      simp [Repo.upsertHasMany, hids', hd, hrest]
    · intro c hc
      obtain ⟨x, _, rfl⟩ := List.mem_map.mp hc
      exact getValue_setValue x ctx.fkColumn ctx.parentId

/-- C3 witness: loaded children `\x7b1,2\x7d` and a failing bulk delete — the
delete error is surfaced and the batch insert never issued. -/
theorem grimoire_C3_witness :
    Repo.upsertHasMany
      { adpOk with deleteResp := fun _ => some ⟨"delete all error", .unexpected⟩ }
      ⟨"transactions", "id", "user_id", .intV 1⟩
      (some [.intV 1, .intV 2])
      [Changes.build [.set "item" (.strV "item3")]] false =
      (.err ⟨"delete all error", .unexpected⟩,
       [.deleteC ((Query.fromTable "transactions").whereC
          (.andC (.eqC "user_id" (.intV 1)) (.inC "id" [.intV 1, .intV 2])))],
       [Changes.build [.set "item" (.strV "item3")]]) :=
  (grimoire_C3_hasMany_replace_delete_before_insert
    { adpOk with deleteResp := fun _ => some ⟨"delete all error", .unexpected⟩ }
    ⟨"transactions", "id", "user_id", .intV 1⟩ [.intV 1, .intV 2]
    [Changes.build [.set "item" (.strV "item3")]] (by decide)).1 _ rfl

/-- C4 counterexample: `Repo.Insert` (repo.go:109-132) on a parent record
whose built changeset carries a nested, unloaded belongsTo child changeset
(`Buyer`, no primary key) issues no child Insert at all: the trace is the
parent's own single adapter Insert of the whole changeset followed by the
primary-key re-read — zero Insert calls against the child table precede
it — and no `user_id` foreign-key entry appears in the changeset, contrary
to the claim. -/
theorem grimoire_C4_counterexample :
    (Changes.build
        [.assocMapB "Buyer" [[("name", .strV "buyer1"), ("age", .intV 20)]]]).getAssoc
        "Buyer" =
      some [[("name", .setOp (.strV "buyer1")), ("age", .setOp (.intV 20))]] ∧
    Repo.insert adpOk (some ⟨"transactions", "id", .intV 0⟩)
        [.assocMapB "Buyer" [[("name", .strV "buyer1"), ("age", .intV 20)]]] =
      (none,
       [.insertC (Query.build "transactions" [])
          (Changes.build
            [.assocMapB "Buyer" [[("name", .strV "buyer1"), ("age", .intV 20)]]]),
        .allC (((Query.fromTable "transactions").whereC
          (.eqC "id" (.intV 1))).limitTo 1)]) ∧
    List.countP
      (fun c => match c with
        | AdapterCall.insertC q _ => decide (q.table = "users")
        | _ => false)
      (Repo.insert adpOk (some ⟨"transactions", "id", .intV 0⟩)
        [.assocMapB "Buyer" [[("name", .strV "buyer1"), ("age", .intV 20)]]]).2 = 0 ∧
    (Changes.build
        [.assocMapB "Buyer" [[("name", .strV "buyer1"), ("age", .intV 20)]]]).getValue
        "user_id" = none := by
  refine ⟨by decide, by decide, by decide, by decide⟩

/-- C4 (amended): `Repo.Insert` itself issues no child Insert — association
orchestration is not wired into it in this snapshot; the claimed
child-first behaviour holds of the `upsertBelongsTo` helper: with an
unloaded associated record it issues exactly one child Insert, on success
propagates the assigned id into the owner's changeset under the owner's
foreign-key column, and on failure surfaces the insert error unchanged
with no foreign-key entry added. -/
theorem grimoire_C4_upsertBelongsTo_insert_propagates_fk
    (adp : Adapter) (ctx : BelongsToCtx) (ch parent : Changes)
    (hload : ctx.loadedPk = none) (hpk : ch.getValue ctx.childPk = none) :
    (∀ e, adp.insertResp (Query.fromTable ctx.childTable) ch = .error e →
       Repo.upsertBelongsTo adp ctx [ch] parent =
         (.err e, [.insertC (Query.fromTable ctx.childTable) ch], parent)) ∧
    (∀ cid, adp.insertResp (Query.fromTable ctx.childTable) ch = .ok cid →
       (Repo.upsertBelongsTo adp ctx [ch] parent).2 =
         ([.insertC (Query.fromTable ctx.childTable) ch,
           .allC (((Query.fromTable ctx.childTable).whereC
             (.eqC ctx.childPk cid)).limitTo 1)],
          parent.setValue ctx.fkColumn cid) ∧
       (parent.setValue ctx.fkColumn cid).getValue ctx.fkColumn = some cid) := by
  constructor
  · intro e he
    simp [Repo.upsertBelongsTo, hpk, hload, belongsToInsert, he]
  · intro cid hcid
    refine ⟨?_, getValue_setValue parent ctx.fkColumn cid⟩
    simp [Repo.upsertBelongsTo, hpk, hload, belongsToInsert, hcid, one_trace,
      Query.build, applyQueryBuilder, List.foldl]

/-- C4 witness: an unloaded buyer inserted with assigned id 1; exactly one
child Insert, and `user_id = 1` propagated into the owner's changeset. -/
theorem grimoire_C4_witness :
    (Repo.upsertBelongsTo adpOk ⟨"users", "id", "user_id", none⟩
        [Changes.build [.set "name" (.strV "buyer1")]] (Changes.build [])).2 =
      ([.insertC (Query.fromTable "users")
          (Changes.build [.set "name" (.strV "buyer1")]),
        .allC (((Query.fromTable "users").whereC (.eqC "id" (.intV 1))).limitTo 1)],
       (Changes.build []).setValue "user_id" (.intV 1)) ∧
    ((Changes.build []).setValue "user_id" (.intV 1)).getValue "user_id" =
      some (.intV 1) :=
  (grimoire_C4_upsertBelongsTo_insert_propagates_fk adpOk
    ⟨"users", "id", "user_id", none⟩
    (Changes.build [.set "name" (.strV "buyer1")]) (Changes.build [])
    rfl rfl).2 (.intV 1) rfl

/-! ## Preload mapping lemmas -/

/-- `stepRow` never changes a target's reference-key value. -/
theorem stepRow_refVal (row : Row) (t : PreloadTarget) :
    (stepRow row t).refVal = t.refVal := by
  unfold stepRow
  split
  · split <;> rfl
  · rfl

/-- `stepRow` never changes a target's kind. -/
theorem stepRow_isSlice (row : Row) (t : PreloadTarget) :
    (stepRow row t).isSlice = t.isSlice := by
  unfold stepRow
  split
  · split <;> rfl
  · rfl

/-- The `Preload` mapping loop acts independently on each target. -/
theorem assignRows_eq_map (rows : List Row) (ts : List PreloadTarget) :
    assignRows ts rows = ts.map (fun t => assignOne t rows) := by
  induction rows generalizing ts with
  | nil => simp [assignRows, assignOne]
  | cons r rs ih =>
      show assignRows (ts.map (stepRow r)) rs = _
      rw [ih, List.map_map]
      rfl

/-- Appending a head to a list with a known last element keeps it. -/
theorem getLast?_cons_some (r : Row) {l : List Row} {x : Row}
    (h : l.getLast? = some x) : (r :: l).getLast? = some x := by
  cases l with
  | nil => simp at h
  | cons a as => rw [List.getLast?_cons_cons]; exact h

/-- Characterization of the `Preload` mapping loop on one target: a slice
target accumulates exactly the rows whose foreign key equals its collected
reference value, in reply order; a pointer/value target ends up holding the
last such row, untouched when no row matches. -/
theorem assignOne_spec (rows : List Row) (t : PreloadTarget) :
    assignOne t rows =
      if t.isSlice then
        { t with content := t.content ++ matchedRows t.refVal rows }
      else
        match (matchedRows t.refVal rows).getLast? with
        | none => t
        | some r => { t with content := [r] } := by
  induction rows generalizing t with
  | nil =>
      obtain ⟨rv, sl, ct⟩ := t
      cases sl <;> simp [assignOne, matchedRows]
  | cons r rs ih =>
      obtain ⟨rv, sl, ct⟩ := t
      have hstep : assignOne ⟨rv, sl, ct⟩ (r :: rs) =
          assignOne (stepRow r ⟨rv, sl, ct⟩) rs := rfl
      by_cases hm : rv = some r.fkVal
      · have hmc : matchedRows rv (r :: rs) = r :: matchedRows rv rs := by
          simp [matchedRows, List.filter_cons, rowMatches, hm]
        cases sl
        · have h0 : stepRow r ⟨rv, false, ct⟩ = ⟨rv, false, [r]⟩ := by
            simp [stepRow, hm]
          rw [hstep, h0, ih]
          rw [hmc]
          cases hl : (matchedRows rv rs).getLast? with
          | none =>
              have hnil : matchedRows rv rs = [] :=
                List.getLast?_eq_none_iff.mp hl
              simp [hl, hnil]
          | some x =>
              simp [hl, getLast?_cons_some r hl]
        · have h0 : stepRow r ⟨rv, true, ct⟩ = ⟨rv, true, ct ++ [r]⟩ := by
            simp [stepRow, hm]
          rw [hstep, h0, ih]
          simp [hmc, List.append_assoc]
      · have hmr : rowMatches rv r = false := by simp [rowMatches, hm]
        have h0 : stepRow r ⟨rv, sl, ct⟩ = ⟨rv, sl, ct⟩ := by
          simp [stepRow, hm]
        have hmc : matchedRows rv (r :: rs) = matchedRows rv rs := by
          simp [matchedRows, List.filter_cons, hmr]
        rw [hstep, h0, ih, hmc]

/-- C7: with at least one preload target and at least one collected
reference-key value, and a successful adapter read, `Preload` issues
exactly one read filtered by `column IN (collected values)` and each
returned row is assigned only to the targets whose collected key equals
its foreign-key value — appended for slice targets, single-assigned for
pointer/value targets; with no targets or no collected values, `Preload`
returns `nil` without any adapter call. -/
theorem grimoire_C7_preload_batched_read_fanout
    (adp : Adapter) (childTable column : String)
    (targets : List PreloadTarget) (rows : List Row)
    (hne : targets ≠ []) (hids : collectIds targets ≠ [])
    (hresp : adp.allRowsResp (Query.build childTable
        [.whereB (.inC column (collectIds targets))]) = .ok rows) :
    Repo.preload adp childTable column targets =
      (none,
       [.allC (Query.build childTable [.whereB (.inC column (collectIds targets))])],
       targets.map (fun t =>
         if t.isSlice then
           { t with content := t.content ++ matchedRows t.refVal rows }
         else
           match (matchedRows t.refVal rows).getLast? with
           | none => t
           | some r => { t with content := [r] })) ∧
    (∀ ts : List PreloadTarget, ts = [] ∨ collectIds ts = [] →
      Repo.preload adp childTable column ts = (none, [], ts)) := by
  constructor
  · have hne' : targets.isEmpty = false := by
      cases targets with
      | nil => exact absurd rfl hne
      | cons a l => rfl
    have hids' : (collectIds targets).isEmpty = false := by
      cases h : collectIds targets with
      | nil => exact absurd h hids
      | cons a l => rfl
    simp only [Query.build, applyQueryBuilder, List.foldl] at hresp
    simp [Repo.preload, hne', hids', hresp, assignRows_eq_map, assignOne_spec,
      Query.build, applyQueryBuilder, List.foldl]
  · intro ts h
    rcases h with h | h
    · subst h; rfl
    · by_cases hts : ts = []
      · subst hts; rfl
      · have h1 : ts.isEmpty = false := by
          cases ts with
          | nil => exact absurd rfl hts
          | cons a l => rfl
        simp [Repo.preload, h1, h]

/-- Concrete child rows used by the preload witness. -/
def rowsW : List Row := [⟨.intV 1, 10⟩, ⟨.intV 2, 20⟩, ⟨.intV 1, 30⟩]

/-- Adapter whose read materializes `rowsW`. -/
def adpRows : Adapter := { adpOk with allRowsResp := fun _ => .ok rowsW }

/-- C7 witness: parents collected as ids 1 and 2; one batched read with
`parent_id IN (1, 2)`; each child row lands only on its matching parent. -/
theorem grimoire_C7_witness :
    Repo.preload adpRows "children" "parent_id"
      [⟨some (.intV 1), true, []⟩, ⟨some (.intV 2), false, []⟩] =
      (none,
       [.allC (Query.build "children"
         [.whereB (.inC "parent_id" [.intV 1, .intV 2])])],
       [⟨some (.intV 1), true, [⟨.intV 1, 10⟩, ⟨.intV 1, 30⟩]⟩,
        ⟨some (.intV 2), false, [⟨.intV 2, 20⟩]⟩]) := by
  have h := (grimoire_C7_preload_batched_read_fanout adpRows
    "children" "parent_id"
    [⟨some (.intV 1), true, []⟩, ⟨some (.intV 2), false, []⟩]
    rowsW (by decide) (by decide) rfl).1
  simpa [rowsW, matchedRows, rowMatches] using h

end Grimoire
